import Mathlib

/-!
Verification development for the codeTM repository.

The TypeScript sources are shallowly embedded as executable Lean
definitions:

* `src/lib/database.ts` — the `Database` class (SQLite store) becomes a
  pure `Store` record with explicit state passing; the synthetic
  `Date.now()`-based row ids become a fresh-id counter.
* `src/lib/git-analyzer.ts` (`GitAnalyzer`) — the git boundary
  (`simple-git`) is modelled by a `GitRepo` record carrying, per commit,
  the raw data the analyzer reads from git: log metadata, the
  `diff --name-status` output against the commit's first parent, the
  per-file `--numstat` output, and the `diffSummary` aggregates.  All git
  diff calls in the source use the revision `hash^`, which git fails to
  resolve when the commit has no parent; the model makes these calls
  return `Except.error` exactly in that case.
* `src/lib/llm-analyzer.ts` (`LLMAnalyzer`) — the response parsers and
  context filtering.  `JSON.parse` is modelled by an executable JSON
  parser `jsonParse`; the regexes `/\x7b[\s\S]*\x7d/` and
  `/\[[\s\S]*\]/` (greedy first-opener to last-closer match) are
  modelled by `extractBracket`.

JavaScript string primitives (`split`, `trim`, `substring`, `includes`,
`endsWith`, `parseInt`, `toLowerCase`) are re-implemented structurally
over `List Char` so that all definitions evaluate in the kernel.
-/

/-! ### JavaScript string primitives -/

/-- Whitespace recognised by `String.prototype.trim` (ASCII fragment). -/
def isWsChar (c : Char) : Bool :=
  c = ' ' || c = '\t' || c = '\n' || c = '\r'

/-- `s.trim()` — strip leading and trailing whitespace. -/
def jsTrim (s : String) : String :=
  String.mk (((s.data.dropWhile isWsChar).reverse.dropWhile isWsChar).reverse)

/-- Auxiliary for `jsSplitChar`: split a character list at a separator. -/
def jsSplitCharAux (sep : Char) : List Char → List Char → List String
  | [], acc => [String.mk acc.reverse]
  | c :: cs, acc =>
    if c = sep then String.mk acc.reverse :: jsSplitCharAux sep cs []
    else jsSplitCharAux sep cs (c :: acc)

/-- `s.split(sep)` for a single-character separator (JS semantics:
`"".split` gives `[""]`, separators at the ends give empty fields). -/
def jsSplitChar (sep : Char) (s : String) : List String :=
  jsSplitCharAux sep s.data []

/-- Auxiliary for `jsSplit`: fuel-indexed scan for a multi-character
separator. -/
def jsSplitAux (sep : List Char) : Nat → List Char → List Char → List String
  | 0, cs, acc => [String.mk (acc.reverse ++ cs)]
  | _ + 1, [], acc => [String.mk acc.reverse]
  | fuel + 1, c :: cs, acc =>
    if sep.isPrefixOf (c :: cs) then
      String.mk acc.reverse :: jsSplitAux sep fuel ((c :: cs).drop sep.length) []
    else
      jsSplitAux sep fuel cs (c :: acc)

/-- `s.split(sep)` for a non-empty separator string. -/
def jsSplit (sep : String) (s : String) : List String :=
  jsSplitAux sep.data (s.data.length + 1) s.data []

/-- `sub.isPrefixOf`-based substring test: `s.includes(sub)`. -/
def jsIncludes (s sub : String) : Bool :=
  s.data.tails.any (fun t => sub.data.isPrefixOf t)

/-- `s.endsWith(suffixStr)`. -/
def jsEndsWith (s suffixStr : String) : Bool :=
  suffixStr.data.reverse.isPrefixOf s.data.reverse

/-- `s.toLowerCase()` (ASCII). -/
def jsToLower (s : String) : String :=
  String.mk (s.data.map Char.toLower)

/-- `s.substring(0, n)` (clamping at the end of the string). -/
def jsSubstring0 (n : Nat) (s : String) : String :=
  String.mk (s.data.take n)

/-- JS string length (`List Char` codepoint count; the sources only ever
compare lengths of ordinary text, where this agrees with UTF-16 length). -/
def jsLength (s : String) : Nat :=
  s.data.length

/-- Decimal digits to a number. -/
def digitsToNat (ds : List Char) : Nat :=
  ds.foldl (fun acc c => 10 * acc + (c.toNat - '0'.toNat)) 0

/-- `parseInt(s) || 0`: skip leading whitespace, optional sign, read
leading decimal digits; `NaN` (no digits) collapses to `0` through
`|| 0`. -/
def jsParseIntOr0 (s : String) : Int :=
  let cs := s.data.dropWhile isWsChar
  let signed : Bool × List Char :=
    match cs with
    | '-' :: t => (true, t)
    | '+' :: t => (false, t)
    | _ => (false, cs)
  let ds := signed.2.takeWhile Char.isDigit
  if ds.isEmpty then 0
  else if signed.1 then -(digitsToNat ds : Int) else (digitsToNat ds : Int)

/-! ### Data model (`src/lib/database.ts`)

Row ids are modelled by a `Nat` counter: the source generates
`` `commit_${Date.now()}_${random}` `` — a value fresh with respect to
every id already in the store, which is exactly what the counter
provides. -/

/-- `FileChange['change_type']` — closed enumeration. -/
inductive ChangeType where
  | added
  | modified
  | deleted
  | renamed
deriving DecidableEq, Repr

/-- The fields of a `Commit` row minus the synthetic `id`
(`Omit<Commit, 'id'>`, the argument of `Database.createCommit`). -/
structure CommitData where
  repo_id : String
  hash : String
  author : String
  email : String
  date : String
  message : String
  files_changed : Nat
  insertions : Nat
  deletions : Nat
  parents : List String
deriving DecidableEq, Repr

/-- A persisted `commits` row. -/
structure CommitRow where
  id : Nat
  repo_id : String
  hash : String
  author : String
  email : String
  date : String
  message : String
  files_changed : Nat
  insertions : Nat
  deletions : Nat
  parents : List String
deriving DecidableEq, Repr

/-- Forget the synthetic id of a commit row. -/
def commitProj (r : CommitRow) : CommitData :=
  { repo_id := r.repo_id, hash := r.hash, author := r.author, email := r.email
    date := r.date, message := r.message, files_changed := r.files_changed
    insertions := r.insertions, deletions := r.deletions, parents := r.parents }

/-- Build a commit row from its data and a fresh id. -/
def mkCommitRow (d : CommitData) (n : Nat) : CommitRow :=
  { id := n, repo_id := d.repo_id, hash := d.hash, author := d.author
    email := d.email, date := d.date, message := d.message
    files_changed := d.files_changed, insertions := d.insertions
    deletions := d.deletions, parents := d.parents }

/-- The fields of a `FileChange` row minus the synthetic `id`. -/
structure FileChangeData where
  commit_id : Nat
  file_path : String
  change_type : ChangeType
  insertions : Int
  deletions : Int
  old_path : Option String
deriving DecidableEq, Repr

/-- A persisted `file_changes` row. -/
structure FileChangeRow where
  id : Nat
  commit_id : Nat
  file_path : String
  change_type : ChangeType
  insertions : Int
  deletions : Int
  old_path : Option String
deriving DecidableEq, Repr

/-- The mutable store: the `commits` and `file_changes` tables plus the
fresh-id counter. -/
structure Store where
  commits : List CommitRow
  fileChanges : List FileChangeRow
  nextId : Nat
deriving DecidableEq, Repr

/-- The store before any ingestion. -/
def emptyStore : Store :=
  { commits := [], fileChanges := [], nextId := 0 }

/-- Does a row conflict with the natural key `(repo_id, hash)`? -/
def commitKeyHit (repoId hash : String) (r : CommitRow) : Bool :=
  decide (r.repo_id = repoId) && decide (r.hash = hash)

/-- Delete every commit row with the given natural key (the deletion half
of SQLite's `INSERT OR REPLACE` under `UNIQUE(repo_id, hash)`). -/
def eraseCommitKey (repoId hash : String) (L : List CommitRow) : List CommitRow :=
  L.filter (fun r => !commitKeyHit repoId hash r)

/-- `Database.createCommit`: `INSERT OR REPLACE INTO commits` keyed by
`UNIQUE(repo_id, hash)` with a freshly generated id; returns the saved
row. -/
def createCommit (st : Store) (c : CommitData) : CommitRow × Store :=
  let row := mkCommitRow c st.nextId
  (row,
    { commits := eraseCommitKey c.repo_id c.hash st.commits ++ [row]
      fileChanges := st.fileChanges
      nextId := st.nextId + 1 })

/-- `Database.createFileChange`: plain `INSERT INTO file_changes` with a
freshly generated id. -/
def createFileChange (st : Store) (fc : FileChangeData) : Store :=
  { commits := st.commits
    fileChanges := st.fileChanges ++
      [{ id := st.nextId, commit_id := fc.commit_id, file_path := fc.file_path
         change_type := fc.change_type, insertions := fc.insertions
         deletions := fc.deletions, old_path := fc.old_path }]
    nextId := st.nextId + 1 }

/-! ### Git boundary model

A `RawCommit` carries everything `GitAnalyzer` reads from `simple-git`
about one commit: the log fields and the outputs of the three diff
invocations against `hash^`.  Git fails to resolve the revision `hash^`
precisely when the commit has no parent, so each diff accessor returns
`Except.error` in that case. -/

structure RawCommit where
  hash : String
  author_name : String
  author_email : String
  date : String
  message : String
  /-- The `refs` log field (decorations); the source (mis)uses it to
  populate `Commit.parents`. -/
  refs : String
  /-- The hashes of the commit's parents in the git graph. -/
  parents : List String
  /-- `diffSummary([hash^, hash]).files.length`. -/
  summaryFilesChanged : Nat
  /-- `diffSummary([hash^, hash]).insertions`. -/
  summaryInsertions : Nat
  /-- `diffSummary([hash^, hash]).deletions`. -/
  summaryDeletions : Nat
  /-- Output of `diff([hash^, hash, '--name-status'])`. -/
  nameStatusOut : String
  /-- Output of `diff([hash^, hash, '--numstat', '--', filePath])`;
  `none` models the call throwing (caught by the source). -/
  numstatOut : String → Option String

/-- A repository as seen through `git log --all` (newest first). -/
structure GitRepo where
  log : List RawCommit

/-- `git.diffSummary([hash^, hash])`: fails when the commit has no
parent (`hash^` is an unknown revision). -/
def diffSummary (c : RawCommit) : Except String (Nat × Nat × Nat) :=
  if c.parents.isEmpty then
    Except.error "unknown revision"
  else
    Except.ok (c.summaryFilesChanged, c.summaryInsertions, c.summaryDeletions)

/-- `git.diff([hash^, hash, '--name-status'])`: fails when the commit has
no parent. -/
def diffNameStatus (c : RawCommit) : Except String String :=
  if c.parents.isEmpty then
    Except.error "unknown revision"
  else
    Except.ok c.nameStatusOut

/-- Is an `Except` in its error branch? -/
def exceptFailed : Except ε α → Bool
  | Except.error _ => true
  | Except.ok _ => false

/-! ### `GitAnalyzer.analyzeFileChanges` and `analyzeCommitHistory` -/

/-- Classify a `--name-status` code via `switch (status[0])`
(`A`/`M`/`D`/`R`, anything else — including an empty status — falls to
the `default: modified` branch). -/
def classifyStatus (status : String) : ChangeType :=
  match status.data with
  | 'A' :: _ => ChangeType.added
  | 'M' :: _ => ChangeType.modified
  | 'D' :: _ => ChangeType.deleted
  | 'R' :: _ => ChangeType.renamed
  | _ => ChangeType.modified

/-- Extract `(insertions, deletions)` from a `--numstat` output: take the
first line; if it is non-empty and not the literal `-\t-`, split on tabs
and `parseInt(..) || 0` the first two columns. -/
def numstatStats (out : String) : Int × Int :=
  let statLine := (jsSplitChar '\n' out).headD ""
  if statLine ≠ "" ∧ statLine ≠ "-\t-" then
    let cols := jsSplitChar '\t' statLine
    (jsParseIntOr0 (cols.headD ""), jsParseIntOr0 ((cols.drop 1).headD ""))
  else
    (0, 0)

/-- One iteration of the `--name-status` line loop in
`GitAnalyzer.analyzeFileChanges`: split on tabs, skip lines with fewer
than two fields, classify, fetch per-file numstat (a throwing call is
caught, leaving zero counts), persist the `FileChange`. -/
def processNameStatusLine (c : RawCommit) (commitId : Nat) (st : Store)
    (line : String) : Store :=
  match jsSplitChar '\t' line with
  | status :: filePath :: rest =>
    let changeType := classifyStatus status
    let stats :=
      match c.numstatOut filePath with
      | none => ((0 : Int), (0 : Int))
      | some out => numstatStats out
    createFileChange st
      { commit_id := commitId, file_path := filePath, change_type := changeType
        insertions := stats.1, deletions := stats.2, old_path := rest.head? }
  | _ => st

/-- `GitAnalyzer.analyzeFileChanges`: diff the commit against `hash^`
with `--name-status` and persist one `FileChange` row per usable line; a
failing diff is caught and persists nothing. -/
def analyzeFileChanges (st : Store) (commitId : Nat) (c : RawCommit) : Store :=
  match diffNameStatus c with
  | Except.error _ => st
  | Except.ok out =>
    let lines := (jsSplitChar '\n' out).filter (fun l => !(jsTrim l == ""))
    lines.foldl (processNameStatusLine c commitId) st

/-- The `Commit` data the analyzer builds for one raw commit (with the
aggregates already filled in from `diffSummary`).  Note the source
populates `parents` from the `refs` log field. -/
def commitDataOf (repoId : String) (c : RawCommit) : CommitData :=
  { repo_id := repoId, hash := c.hash, author := c.author_name
    email := c.author_email, date := c.date, message := c.message
    files_changed := c.summaryFilesChanged, insertions := c.summaryInsertions
    deletions := c.summaryDeletions
    parents := if c.refs = "" then [] else jsSplit ", " c.refs }

/-- The per-commit body of `GitAnalyzer.analyzeCommitHistory`'s loop: if
`diffSummary` against `hash^` throws, the `catch` logs and moves on
(nothing is persisted for this commit); otherwise the commit is
upserted and its file changes are analyzed. -/
def processCommit (repoId : String) (st : Store) (c : RawCommit) : Store :=
  match diffSummary c with
  | Except.error _ => st
  | Except.ok _ =>
    let saved := createCommit st (commitDataOf repoId c)
    analyzeFileChanges saved.2 saved.1.id c

/-- `GitAnalyzer.analyzeCommitHistory repoId limit`: walk
`git log --all --stat --max-count=limit` newest-first and process each
commit with per-commit failure isolation. -/
def analyzeCommitHistory (repoId : String) (repo : GitRepo) (limit : Nat)
    (st : Store) : Store :=
  (repo.log.take limit).foldl (processCommit repoId) st

/-! ### JSON values and a model of `JSON.parse`

The source hands model output to `JSON.parse`; we model JSON values by
`JVal` (numbers keep their lexeme — their numeric value is never used by
the source) and `JSON.parse` by a fuel-indexed recursive-descent parser
over the JSON grammar. -/

inductive JVal where
  | null
  | bool (b : Bool)
  | num (lexeme : String)
  | str (s : String)
  | arr (elems : List JVal)
  | obj (fields : List (String × JVal))

/-- The `\x7b` character. -/
def lbraceChar : Char := Char.ofNat 123

/-- The `\x7d` character. -/
def rbraceChar : Char := Char.ofNat 125

/-- Skip JSON whitespace. -/
def skipWs : List Char → List Char
  | c :: cs => if c = ' ' ∨ c = '\n' ∨ c = '\r' ∨ c = '\t' then skipWs cs else c :: cs
  | [] => []

/-- Is a character a hexadecimal digit? -/
def isHexChar (c : Char) : Bool :=
  c.isDigit || ('a' ≤ c && c ≤ 'f') || ('A' ≤ c && c ≤ 'F')

/-- Parse the body of a JSON string (the opening quote already
consumed); returns the decoded characters and the rest of the input. -/
def parseStringChars : Nat → List Char → Option (List Char × List Char)
  | 0, _ => none
  | _ + 1, [] => none
  | fuel + 1, c :: cs =>
    if c = '"' then some ([], cs)
    else if c = '\\' then
      match cs with
      | e :: cs2 =>
        let cont := fun (ch : Char) (rest : List Char) =>
          (parseStringChars fuel rest).map (fun p => (ch :: p.1, p.2))
        if e = '"' then cont '"' cs2
        else if e = '\\' then cont '\\' cs2
        else if e = '/' then cont '/' cs2
        else if e = 'b' then cont (Char.ofNat 8) cs2
        else if e = 'f' then cont (Char.ofNat 12) cs2
        else if e = 'n' then cont '\n' cs2
        else if e = 'r' then cont '\r' cs2
        else if e = 't' then cont '\t' cs2
        else if e = 'u' then
          match cs2 with
          | h1 :: h2 :: h3 :: h4 :: cs3 =>
            if isHexChar h1 && isHexChar h2 && isHexChar h3 && isHexChar h4 then
              let v := ((hexCharVal h1 * 16 + hexCharVal h2) * 16 + hexCharVal h3) * 16 + hexCharVal h4
              cont (Char.ofNat v) cs3
            else none
          | _ => none
        else none
      | [] => none
    else if c.toNat < 32 then none
    else (parseStringChars fuel cs).map (fun p => (c :: p.1, p.2))
where
  hexCharVal (c : Char) : Nat :=
    if c.isDigit then c.toNat - '0'.toNat
    else if 'a' ≤ c ∧ c ≤ 'f' then c.toNat - 'a'.toNat + 10
    else if 'A' ≤ c ∧ c ≤ 'F' then c.toNat - 'A'.toNat + 10
    else 0

/-- Lex a JSON number, returning its lexeme and the rest of the input. -/
def parseNumberLex (cs : List Char) : Option (String × List Char) :=
  let signed : List Char × List Char :=
    match cs with
    | '-' :: t => (['-'], t)
    | _ => ([], cs)
  let intDs := signed.2.takeWhile Char.isDigit
  let afterInt := signed.2.dropWhile Char.isDigit
  if intDs.isEmpty then none
  else if intDs.length > 1 && intDs.headD ' ' = '0' then none
  else
    let fracPart : Option (List Char × List Char) :=
      match afterInt with
      | '.' :: t =>
        let ds := t.takeWhile Char.isDigit
        if ds.isEmpty then none else some ('.' :: ds, t.dropWhile Char.isDigit)
      | _ => some ([], afterInt)
    match fracPart with
    | none => none
    | some (fr, afterFrac) =>
      let expPart : Option (List Char × List Char) :=
        match afterFrac with
        | e :: t =>
          if e = 'e' ∨ e = 'E' then
            let signExp : List Char × List Char :=
              match t with
              | '+' :: t2 => (['+'], t2)
              | '-' :: t2 => (['-'], t2)
              | _ => ([], t)
            let ds := signExp.2.takeWhile Char.isDigit
            if ds.isEmpty then none
            else some (e :: (signExp.1 ++ ds), signExp.2.dropWhile Char.isDigit)
          else some ([], afterFrac)
        | [] => some ([], [])
      match expPart with
      | none => none
      | some (ex, restCs) => some (String.mk (signed.1 ++ intDs ++ fr ++ ex), restCs)

mutual

/-- Parse one JSON value. -/
def parseValue : Nat → List Char → Option (JVal × List Char)
  | 0, _ => none
  | fuel + 1, cs =>
    match skipWs cs with
    | [] => none
    | c :: rest =>
      if c = '"' then
        (parseStringChars (fuel + 1) rest).map (fun p => (JVal.str (String.mk p.1), p.2))
      else if c = '[' then
        match skipWs rest with
        | x :: r2 =>
          if x = ']' then some (JVal.arr [], r2)
          else (parseElems fuel rest).map (fun p => (JVal.arr p.1, p.2))
        | [] => none
      else if c = lbraceChar then
        match skipWs rest with
        | x :: r2 =>
          if x = rbraceChar then some (JVal.obj [], r2)
          else (parseMembers fuel rest).map (fun p => (JVal.obj p.1, p.2))
        | [] => none
      else if c = 'n' then
        if ['u', 'l', 'l'].isPrefixOf rest then some (JVal.null, rest.drop 3) else none
      else if c = 't' then
        if ['r', 'u', 'e'].isPrefixOf rest then some (JVal.bool true, rest.drop 3) else none
      else if c = 'f' then
        if ['a', 'l', 's', 'e'].isPrefixOf rest then some (JVal.bool false, rest.drop 4) else none
      else
        (parseNumberLex (c :: rest)).map (fun p => (JVal.num p.1, p.2))

/-- Parse `value (, value)* ]` — the non-empty tail of a JSON array. -/
def parseElems : Nat → List Char → Option (List JVal × List Char)
  | 0, _ => none
  | fuel + 1, cs =>
    match parseValue fuel cs with
    | none => none
    | some (v, r) =>
      match skipWs r with
      | c :: r2 =>
        if c = ',' then (parseElems fuel r2).map (fun p => (v :: p.1, p.2))
        else if c = ']' then some ([v], r2)
        else none
      | [] => none

/-- Parse `"key" : value (, "key" : value)* \x7d` — the non-empty tail
of a JSON object. -/
def parseMembers : Nat → List Char → Option (List (String × JVal) × List Char)
  | 0, _ => none
  | fuel + 1, cs =>
    match skipWs cs with
    | q :: r1 =>
      if q = '"' then
        match parseStringChars fuel r1 with
        | none => none
        | some (k, r2) =>
          match skipWs r2 with
          | ':' :: r3 =>
            match parseValue fuel r3 with
            | none => none
            | some (v, r4) =>
              match skipWs r4 with
              | c :: r5 =>
                if c = ',' then
                  (parseMembers fuel r5).map (fun p => ((String.mk k, v) :: p.1, p.2))
                else if c = rbraceChar then some ([(String.mk k, v)], r5)
                else none
              | [] => none
          | _ => none
      else none
    | [] => none

end

/-- `JSON.parse`: parse one value and require only whitespace after it. -/
def jsonParse (s : String) : Option JVal :=
  match parseValue (2 * s.data.length + 2) s.data with
  | some (v, rest) => if skipWs rest = [] then some v else none
  | none => none

/-- The greedy bracket-extraction regexes of the response parsers
(`/\[[\s\S]*\]/` and its brace analogue): match from the first opener to
the last closer when the first opener precedes some closer; otherwise the
whole text is used. -/
def extractBracket (openC closeC : Char) (s : String) : String :=
  let cs := s.data
  match cs.findIdx? (fun c => c = openC), cs.reverse.findIdx? (fun c => c = closeC) with
  | some i, some rj =>
    let j := cs.length - 1 - rj
    if i < j then String.mk ((cs.drop i).take (j - i + 1)) else s
  | _, _ => s

/-! ### Response parsers (`LLMAnalyzer.parse*Response`) -/

/-- `LLMAnalyzer.parseEvolutionResponse`: extract a brace-delimited
substring, `JSON.parse` it, and on failure build the fixed fallback
object (answer truncated to 500 characters with an ellipsis when the raw
response is longer). -/
def parseEvolutionResponse (response : String) : JVal :=
  match jsonParse (extractBracket lbraceChar rbraceChar response) with
  | some v => v
  | none =>
    JVal.obj
      [ ("answer",
          JVal.str (if 500 < jsLength response then jsSubstring0 500 response ++ "..." else response))
      , ("relevantCommits", JVal.arr [])
      , ("keyInsights", JVal.arr [JVal.str "Unable to parse structured response"])
      , ("patterns", JVal.arr [JVal.str "Raw response provided above"])
      , ("businessContext", JVal.str "Please try asking a more specific question") ]

/-- The fallback `PatternAnalysis[]` value built by
`parsePatternResponse` on a parse failure. -/
def patternFallback (response : String) : JVal :=
  JVal.arr [JVal.obj
    [ ("pattern", JVal.str "Analysis Error")
    , ("description", JVal.str "Unable to parse pattern analysis response")
    , ("introducedAt", JVal.str "Unknown")
    , ("evolution", JVal.arr [JVal.str ("Raw response: " ++ jsSubstring0 200 response ++ "...")])
    , ("impact", JVal.str "low")
    , ("reasoning", JVal.str "Please try the analysis again or check if there's actual commit history") ]]

/-- `LLMAnalyzer.parsePatternResponse`: extract a bracket-delimited
substring, `JSON.parse` it, and on failure return the single-element
"Analysis Error" fallback. -/
def parsePatternResponse (response : String) : JVal :=
  match jsonParse (extractBracket '[' ']' response) with
  | some v => v
  | none => patternFallback response

/-- `LLMAnalyzer.parseArchitecturalResponse`: bracket extraction,
`JSON.parse`, single-element "Analysis Error" fallback. -/
def parseArchitecturalResponse (response : String) : JVal :=
  match jsonParse (extractBracket '[' ']' response) with
  | some v => v
  | none =>
    JVal.arr [JVal.obj
      [ ("decision", JVal.str "Analysis Error")
      , ("rationale", JVal.str "Unable to parse architectural analysis response")
      , ("commit", JVal.str "Unknown")
      , ("impact", JVal.str ("Raw response: " ++ jsSubstring0 200 response ++ "..."))
      , ("alternatives",
          JVal.arr [JVal.str "Please try the analysis again",
                    JVal.str "Check if there's actual commit history to analyze"]) ]]

/-! ### Typed result shapes (the TS interfaces `EvolutionResponse`,
`PatternAnalysis`, `ArchitecturalDecision`) -/

/-- Is a JSON value a string? -/
def isStrB : JVal → Bool
  | JVal.str _ => true
  | _ => false

/-- Is a JSON value an array of strings? -/
def isStrArrB : JVal → Bool
  | JVal.arr xs => xs.all isStrB
  | _ => false

/-- Look up an object field (last occurrence wins, as in `JSON.parse`). -/
def jfield (j : JVal) (k : String) : Option JVal :=
  match j with
  | JVal.obj fs => (fs.reverse.find? (fun p => p.1 == k)).map (fun p => p.2)
  | _ => none

/-- The object has the field and it is a string. -/
def hasStrField (j : JVal) (k : String) : Bool :=
  match jfield j k with
  | some v => isStrB v
  | none => false

/-- The object has the field and it is an array of strings. -/
def hasStrArrField (j : JVal) (k : String) : Bool :=
  match jfield j k with
  | some v => isStrArrB v
  | none => false

/-- Optional string field: absent or a string. -/
def optStrField (j : JVal) (k : String) : Bool :=
  match jfield j k with
  | some v => isStrB v
  | none => true

/-- Shape of the `EvolutionResponse` interface. -/
def isEvolutionShape (j : JVal) : Bool :=
  (match j with | JVal.obj _ => true | _ => false)
    && hasStrField j "answer"
    && hasStrArrField j "relevantCommits"
    && hasStrArrField j "keyInsights"
    && hasStrArrField j "patterns"
    && optStrField j "businessContext"

/-- Shape of one `PatternAnalysis` record. -/
def isPatternRec (j : JVal) : Bool :=
  hasStrField j "pattern"
    && hasStrField j "description"
    && hasStrField j "introducedAt"
    && hasStrArrField j "evolution"
    && (match jfield j "impact" with
        | some (JVal.str s) => s == "high" || s == "medium" || s == "low"
        | _ => false)
    && hasStrField j "reasoning"

/-- Shape of the `PatternAnalysis[]` result. -/
def isPatternSeq (j : JVal) : Bool :=
  match j with
  | JVal.arr xs => xs.all isPatternRec
  | _ => false

/-- Shape of one `ArchitecturalDecision` record. -/
def isArchRec (j : JVal) : Bool :=
  hasStrField j "decision"
    && hasStrField j "rationale"
    && hasStrField j "commit"
    && hasStrField j "impact"
    && hasStrArrField j "alternatives"

/-- Shape of the `ArchitecturalDecision[]` result. -/
def isArchSeq (j : JVal) : Bool :=
  match j with
  | JVal.arr xs => xs.all isArchRec
  | _ => false

/-! ### Evolution queries and commit filtering
(`LLMAnalyzer.filterCommitsByQuery`, `Database.getCommits`) -/

/-- The optional date-range filter of an `EvolutionQuery`. -/
structure TimeRange where
  fromDate : String
  toDate : String
deriving DecidableEq, Repr

/-- The `EvolutionQuery` interface. -/
structure EvolutionQuery where
  question : String
  repoId : String
  filePath : Option String
  timeRange : Option TimeRange
deriving DecidableEq, Repr

/-- Order-faithful model of `new Date(s).valueOf()` at day granularity
for ISO `YYYY-MM-DD`-prefixed dates: the encoding is strictly monotone
in the calendar date, which is all the source's `>=`/`<=` comparisons
observe. -/
def jsDateVal (s : String) : Nat :=
  match jsSplitChar '-' s with
  | [y, m, d] =>
    digitsToNat (y.data.takeWhile Char.isDigit) * 10000 +
      digitsToNat (m.data.takeWhile Char.isDigit) * 100 +
      digitsToNat (d.data.takeWhile Char.isDigit)
  | _ => 0

/-- The date-range predicate of `filterCommitsByQuery`
(`commitDate >= fromDate && commitDate <= toDate` — both bounds
inclusive). -/
def inTimeRange (tr : TimeRange) (c : CommitRow) : Bool :=
  decide (jsDateVal tr.fromDate ≤ jsDateVal c.date ∧ jsDateVal c.date ≤ jsDateVal tr.toDate)

/-- `LLMAnalyzer.filterCommitsByQuery`: filter by the optional date
range; the `if (query.filePath)` branch of the source contains only a
comment ("for now we'll include all commits"), so no file filtering
happens; finally `slice(0, 100)`. -/
def filterCommitsByQuery (commits : List CommitRow) (query : EvolutionQuery) :
    List CommitRow :=
  let filtered := commits
  let filtered :=
    match query.timeRange with
    | some tr => filtered.filter (inTimeRange tr)
    | none => filtered
  filtered.take 100

/-- `Database.getCommits`: `SELECT * FROM commits WHERE repo_id = ?
ORDER BY date DESC LIMIT ? OFFSET ?` (TEXT ordering — lexicographic —
descending). -/
def getCommits (st : Store) (repoId : String) (limit : Nat) (offset : Nat) :
    List CommitRow :=
  (((st.commits.filter (fun r => r.repo_id == repoId)).insertionSort
      (fun a b => b.date ≤ a.date)).drop offset).take limit

/-- Did a commit touch a given file, according to the persisted
`FileChange` rows?  (Used to state the spec's file-path-filter claim;
the source never computes this.) -/
def commitTouchedFile (st : Store) (c : CommitRow) (f : String) : Prop :=
  ∃ fc ∈ st.fileChanges, fc.commit_id = c.id ∧ fc.file_path = f

instance (st : Store) (c : CommitRow) (f : String) :
    Decidable (commitTouchedFile st c f) := by
  unfold commitTouchedFile; infer_instance

/-! ### Prompt-time file snapshot (`LLMAnalyzer.getCodebaseContent`) -/

/-- JS object insertion: overwrite the value when the key exists,
append otherwise. -/
def insertKV (m : List (String × String)) (k v : String) :
    List (String × String) :=
  if m.any (fun p => decide (p.1 = k)) then
    m.map (fun p => if p.1 = k then (k, v) else p)
  else m ++ [(k, v)]

/-- Key lookup in the insertion-ordered mapping. -/
def lookupKV (m : List (String × String)) (k : String) : Option String :=
  (m.find? (fun p => decide (p.1 = k))).map (fun p => p.2)

/-- No entry of the mapping carries the key. -/
def keyAbsent (m : List (String × String)) (k : String) : Prop :=
  ∀ p ∈ m, p.1 ≠ k

/-- The hardcoded `keyFiles` list of `getCodebaseContent`. -/
def codebaseKeyFilePaths : List String :=
  ["README.md", "package.json", "tsconfig.json", "src/index.ts",
   "src/main.ts", "src/app.ts", "index.js", "main.py", "__init__.py"]

/-- `LLMAnalyzer.getCodebaseContent`: try to read each of the nine
hardcoded paths (an unreadable file is skipped) and keep contents
strictly under 50,000 characters. -/
def getCodebaseContent (readFile : String → Option String) :
    List (String × String) :=
  codebaseKeyFilePaths.foldl
    (fun fileContents file =>
      match readFile file with
      | none => fileContents
      | some content =>
        if jsLength content < 50000 then insertKV fileContents file content
        else fileContents)
    []

/-! ### Snapshot collector (`GitAnalyzer.analyzeCodebase`,
`getImportantFiles`, `isKeyFile`, `isTextFile`) -/

/-- The repository working tree as the analyzer sees it: the raw
`git ls-files` output and a read function (`none` models a failing
read). -/
structure FS where
  lsFilesRaw : String
  readFile : String → Option String

/-- `gitFiles.split('\n').filter(f => f.trim())`. -/
def splitFiles (raw : String) : List String :=
  (jsSplitChar '\n' raw).filter (fun f => !(jsTrim f == ""))

/-- `path.basename`: the part after the last slash. -/
def pathBasename (p : String) : String :=
  String.mk ((p.data.reverse.takeWhile (fun c => c ≠ '/')).reverse)

/-- `path.extname`: from the last `.` of the basename to the end; a
leading dot alone (dotfile) yields no extension. -/
def pathExtname (p : String) : String :=
  let b := (pathBasename p).data
  match b.reverse.findIdx? (fun c => c = '.') with
  | none => ""
  | some rj =>
    let i := b.length - 1 - rj
    if i = 0 then "" else String.mk (b.drop i)

/-- `sourceExtensions` from `getImportantFiles`. -/
def sourceExtensions : List String :=
  [".js", ".jsx", ".ts", ".tsx", ".py", ".java", ".go", ".rs", ".c",
   ".cpp", ".h", ".hpp", ".cs", ".php", ".rb"]

/-- `configFiles` from `getImportantFiles`. -/
def configFileNames : List String :=
  ["readme", "package.json", "tsconfig.json", "cargo.toml", "pom.xml",
   "build.gradle"]

/-- `excludePatterns` from `getImportantFiles`. -/
def excludePatterns : List String :=
  ["node_modules/", "dist/", "build/", ".git/", "coverage/", "target/",
   "vendor/"]

/-- The eligibility predicate of `getImportantFiles`: not under an
excluded directory, and a source extension / config basename /
`dockerfile` / markdown file. -/
def importantFileFilter (file : String) : Bool :=
  let ext := jsToLower (pathExtname file)
  let basename := jsToLower (pathBasename file)
  if excludePatterns.any (fun pat => jsIncludes file pat) then false
  else
    sourceExtensions.contains ext
      || configFileNames.any (fun config => jsIncludes basename config)
      || basename == "dockerfile"
      || jsEndsWith file ".md"

/-- `keyPatterns` from `GitAnalyzer.isKeyFile`. -/
def keyFilePatterns : List String :=
  ["readme", "index", "main", "app", "server", "client", "package.json",
   "tsconfig", "dockerfile", "makefile", "config", "setup", "init",
   "bootstrap"]

/-- `GitAnalyzer.isKeyFile`: the lowercase basename contains one of the
priority keywords. -/
def isKeyFile (filePath : String) : Bool :=
  keyFilePatterns.any (fun pat => jsIncludes (jsToLower (pathBasename filePath)) pat)

/-- `GitAnalyzer.getImportantFiles`: eligible files, key files first,
capped at 50. -/
def getImportantFiles (fs : FS) : List String :=
  let allFiles := splitFiles fs.lsFilesRaw
  let importantFiles := allFiles.filter importantFileFilter
  let prioritizedFiles :=
    importantFiles.filter isKeyFile
      ++ importantFiles.filter (fun f => !isKeyFile f)
  prioritizedFiles.take 50

/-- The control characters counted by `isTextFile`'s regex
`[\x00-\x08\x0E-\x1F\x7F]`. -/
def isNonPrintableChar (c : Char) : Bool :=
  c.toNat ≤ 8 || (14 ≤ c.toNat && c.toNat ≤ 31) || c.toNat = 127

/-- `GitAnalyzer.isTextFile`: no control characters, or fewer than 10%
of the content (`n < length * 0.1`, written exactly as `10 * n <
length`). -/
def isTextFile (content : String) : Bool :=
  let n := (content.data.filter isNonPrintableChar).length
  n == 0 || 10 * n < jsLength content

/-- The result record of `analyzeCodebase`. -/
structure CodebaseInfo where
  totalLines : Nat
  fileContents : List (String × String)
  keyFiles : List String
deriving DecidableEq, Repr

/-- The per-file body of `analyzeCodebase`'s loop: read the file
(failures skipped), keep text content strictly under 100,000
characters, accumulate the line count and the key-file subset. -/
def codebaseStep (fs : FS) (cb : CodebaseInfo) (filePath : String) : CodebaseInfo :=
  match fs.readFile filePath with
  | none => cb
  | some content =>
    if isTextFile content && jsLength content < 100000 then
      { totalLines := cb.totalLines + (jsSplitChar '\n' content).length
        fileContents := insertKV cb.fileContents filePath content
        keyFiles := if isKeyFile filePath then cb.keyFiles ++ [filePath] else cb.keyFiles }
    else cb

/-- `GitAnalyzer.analyzeCodebase`: fold `codebaseStep` over the selected
files. -/
def analyzeCodebase (fs : FS) : CodebaseInfo :=
  (getImportantFiles fs).foldl (codebaseStep fs)
    { totalLines := 0, fileContents := [], keyFiles := [] }

/-! ### Derived notions used in statements -/

/-- The hashes of the log commits whose diff against `hash^` succeeds
(those with at least one parent). -/
def okHashes (L : List RawCommit) : List String :=
  (L.filter (fun c => !c.parents.isEmpty)).map (fun c => c.hash)

/-- The commit data persisted for the processable log commits, in
processing order. -/
def okProj (repoId : String) (L : List RawCommit) : List CommitData :=
  (L.filter (fun c => !c.parents.isEmpty)).map (commitDataOf repoId)

/-- Does a commit's data carry one of the given natural keys? -/
def dataKeyHit (repoId : String) (hs : List String) (d : CommitData) : Bool :=
  decide (d.repo_id = repoId) && decide (d.hash ∈ hs)

/-- Two commit rows have different natural keys. -/
def commitKeyDistinct (a b : CommitRow) : Prop :=
  ¬(a.repo_id = b.repo_id ∧ a.hash = b.hash)

instance : DecidableRel commitKeyDistinct := fun a b => by
  unfold commitKeyDistinct; infer_instance

/-! ### Concrete inputs used by the witnesses and counterexamples -/

/-- A parentless (root) commit adding one file. -/
def rootCommitEx : RawCommit :=
  { hash := "r0", author_name := "alice", author_email := "a@x"
    date := "2023-01-01", message := "init", refs := "", parents := []
    summaryFilesChanged := 1, summaryInsertions := 3, summaryDeletions := 0
    nameStatusOut := "A\tfile.ts", numstatOut := fun _ => some "3\t0\tfile.ts" }

/-- A repository whose history is a single root commit. -/
def rootRepoEx : GitRepo := { log := [rootCommitEx] }

/-- A commit with a parent, modifying one file. -/
def childCommitEx : RawCommit :=
  { hash := "c1", author_name := "alice", author_email := "a@x"
    date := "2023-02-01", message := "edit", refs := "", parents := ["r0"]
    summaryFilesChanged := 1, summaryInsertions := 2, summaryDeletions := 0
    nameStatusOut := "M\ta.ts", numstatOut := fun _ => some "2\t0\ta.ts" }

/-- A two-commit repository: a root commit and one child, newest
first as in `git log`. -/
def twoCommitRepoEx : GitRepo := { log := [childCommitEx, rootCommitEx] }

/-- One ingestion run over `twoCommitRepoEx` from the empty store. -/
def runOnceEx : Store := analyzeCommitHistory "repo1" twoCommitRepoEx 1000 emptyStore

/-- A second ingestion run over the unchanged repository. -/
def runTwiceEx : Store := analyzeCommitHistory "repo1" twoCommitRepoEx 1000 runOnceEx

/-- A commit whose `--name-status` diff exercises every status code,
including a rename `R100\told.ts\tnew.ts` (git lists the pre-rename
path before the post-rename path). -/
def renameCommitEx : RawCommit :=
  { hash := "h9", author_name := "bob", author_email := "b@x"
    date := "2023-03-05", message := "rename", refs := "", parents := ["p9"]
    summaryFilesChanged := 5, summaryInsertions := 3, summaryDeletions := 1
    nameStatusOut := "A\tadded.ts\nM\tmod.ts\nD\tdel.ts\nR100\told.ts\tnew.ts\nT\tother.ts"
    numstatOut := fun _ => some "3\t1\tx" }

/-- A commit row that touched no file at all. -/
def c6row : CommitRow :=
  { id := 0, repo_id := "repo1", hash := "c6", author := "a", email := "e"
    date := "2023-05-01", message := "m", files_changed := 1, insertions := 1
    deletions := 0, parents := [] }

/-- A store whose only commit has no `FileChange` rows. -/
def st6 : Store := { commits := [c6row], fileChanges := [], nextId := 1 }

/-- An evolution query with a file-path filter. -/
def q6 : EvolutionQuery :=
  { question := "how did a.ts evolve", repoId := "repo1"
    filePath := some "a.ts", timeRange := none }

/-- Build a commit row dated `d` for the date-range example. -/
def mkDatedRow (i : Nat) (d : String) : CommitRow :=
  { id := i, repo_id := "repo1", hash := toString i, author := "a", email := "e"
    date := d, message := "m", files_changed := 1, insertions := 0
    deletions := 0, parents := [] }

/-- Ten commits dated 2023-01-01 through 2023-10-01, newest first (the
spec's date-range example). -/
def datedRowsEx : List CommitRow :=
  [mkDatedRow 9 "2023-10-01", mkDatedRow 8 "2023-09-01", mkDatedRow 7 "2023-08-01",
   mkDatedRow 6 "2023-07-01", mkDatedRow 5 "2023-06-01", mkDatedRow 4 "2023-05-01",
   mkDatedRow 3 "2023-04-01", mkDatedRow 2 "2023-03-01", mkDatedRow 1 "2023-02-01",
   mkDatedRow 0 "2023-01-01"]

/-- The range `[2023-03-01, 2023-06-01]` of the spec's example. -/
def marchToJuneEx : TimeRange := { fromDate := "2023-03-01", toDate := "2023-06-01" }

/-- The spec's example query: a date range and no file filter. -/
def q7 : EvolutionQuery :=
  { question := "what changed in spring", repoId := "repo1"
    filePath := none, timeRange := some marchToJuneEx }

/-- A small working tree with one key file and one non-key file. -/
def fs0 : FS := { lsFilesRaw := "foo.ts\nindex.ts", readFile := fun _ => none }

/-- A read function that resolves only `README.md`. -/
def rf0 : String → Option String :=
  fun f => if f = "README.md" then some "hello" else none

/-! ### Lemmas: ingestion idempotence machinery -/

theorem processNameStatusLine_commits (c : RawCommit) (i : Nat) (st : Store)
    (l : String) : (processNameStatusLine c i st l).commits = st.commits := by
  unfold processNameStatusLine
  cases jsSplitChar '\t' l with
  | nil => rfl
  | cons s t =>
    cases t with
    | nil => rfl
    | cons f r => rfl

theorem foldl_processNameStatusLine_commits (c : RawCommit) (i : Nat) :
    ∀ (lines : List String) (st : Store),
      (lines.foldl (processNameStatusLine c i) st).commits = st.commits := by
  intro lines
  induction lines with
  | nil => intro st; rfl
  | cons l ls ih =>
    intro st
    rw [List.foldl_cons, ih, processNameStatusLine_commits]

theorem analyzeFileChanges_commits (st : Store) (i : Nat) (c : RawCommit) :
    (analyzeFileChanges st i c).commits = st.commits := by
  unfold analyzeFileChanges
  cases diffNameStatus c with
  | error e => rfl
  | ok out => exact foldl_processNameStatusLine_commits c i _ st

theorem processCommit_of_parentless (repoId : String) (st : Store) (c : RawCommit)
    (h : c.parents.isEmpty = true) : processCommit repoId st c = st := by
  unfold processCommit diffSummary
  rw [h]
  rfl

theorem processCommit_commits_of_ok (repoId : String) (st : Store) (c : RawCommit)
    (h : c.parents.isEmpty = false) :
    (processCommit repoId st c).commits
      = eraseCommitKey repoId c.hash st.commits
        ++ [mkCommitRow (commitDataOf repoId c) st.nextId] := by
  unfold processCommit diffSummary
  rw [h]
  show (analyzeFileChanges (createCommit st (commitDataOf repoId c)).2
      (createCommit st (commitDataOf repoId c)).1.id c).commits = _
  rw [analyzeFileChanges_commits]
  rfl

theorem commitProj_mkCommitRow (d : CommitData) (n : Nat) :
    commitProj (mkCommitRow d n) = d := rfl

theorem map_commitProj_filter (p : CommitData → Bool) (X : List CommitRow) :
    (X.filter (fun r => p (commitProj r))).map commitProj
      = (X.map commitProj).filter p := by
  induction X with
  | nil => rfl
  | cons r t ih =>
    cases h : p (commitProj r) with
    | true => simp [List.filter_cons, h, ih]
    | false => simp [List.filter_cons, h, ih]

theorem eraseCommitKey_map (repoId h : String) (X : List CommitRow) :
    (eraseCommitKey repoId h X).map commitProj
      = (X.map commitProj).filter
          (fun d => !(decide (d.repo_id = repoId) && decide (d.hash = h))) :=
  map_commitProj_filter
    (fun d => !(decide (d.repo_id = repoId) && decide (d.hash = h))) X

theorem foldl_processCommit_commits_proj (repoId : String) :
    ∀ (L : List RawCommit) (st : Store), (okHashes L).Nodup →
      ((L.foldl (processCommit repoId) st).commits.map commitProj)
        = ((st.commits.map commitProj).filter
            (fun d => !dataKeyHit repoId (okHashes L) d))
          ++ okProj repoId L := by
  intro L
  induction L with
  | nil =>
    intro st _
    simp [okHashes, okProj, dataKeyHit]
  | cons c L ih =>
    intro st hnd
    cases h : c.parents.isEmpty with
    | true =>
      have hok : okHashes (c :: L) = okHashes L := by simp [okHashes, h]
      have hop : okProj repoId (c :: L) = okProj repoId L := by simp [okProj, h]
      rw [List.foldl_cons, processCommit_of_parentless repoId st c h, hok, hop]
      exact ih st (by rwa [hok] at hnd)
    | false =>
      have hok : okHashes (c :: L) = c.hash :: okHashes L := by simp [okHashes, h]
      have hop : okProj repoId (c :: L)
          = commitDataOf repoId c :: okProj repoId L := by simp [okProj, h]
      rw [hok] at hnd
      have hnotmem : c.hash ∉ okHashes L := (List.nodup_cons.mp hnd).1
      have hnd2 : (okHashes L).Nodup := (List.nodup_cons.mp hnd).2
      rw [List.foldl_cons, ih (processCommit repoId st c) hnd2,
        processCommit_commits_of_ok repoId st c h, hok, hop,
        List.map_append, eraseCommitKey_map, List.filter_append]
      have hD : (!dataKeyHit repoId (okHashes L) (commitDataOf repoId c)) = true := by
        simp [dataKeyHit, commitDataOf, hnotmem]
      have hcomb : ∀ d ∈ List.map commitProj st.commits,
          (!dataKeyHit repoId (okHashes L) d
            && !(decide (d.repo_id = repoId) && decide (d.hash = c.hash)))
          = !dataKeyHit repoId (c.hash :: okHashes L) d := by
        intro d _
        by_cases h1 : d.repo_id = repoId <;> by_cases h2 : d.hash = c.hash <;>
          by_cases h3 : d.hash ∈ okHashes L <;>
            simp [dataKeyHit, h1, h2, h3]
      rw [List.filter_filter, List.filter_congr hcomb]
      simp [commitProj_mkCommitRow, hD]

theorem okProj_keyHit (repoId : String) (L : List RawCommit) :
    ∀ d ∈ okProj repoId L, dataKeyHit repoId (okHashes L) d = true := by
  intro d hd
  unfold okProj at hd
  rcases List.mem_map.mp hd with ⟨c, hc, rfl⟩
  have hmem : c.hash ∈ okHashes L := by
    unfold okHashes
    exact List.mem_map.mpr ⟨c, hc, rfl⟩
  simp [dataKeyHit, commitDataOf, hmem]

theorem filter_nothit_okProj (repoId : String) (L : List RawCommit) :
    (okProj repoId L).filter (fun d => !dataKeyHit repoId (okHashes L) d) = [] := by
  rw [List.filter_eq_nil_iff]
  intro d hd
  simp [okProj_keyHit repoId L d hd]

theorem reingest_commits_proj (repoId : String) (L : List RawCommit) (st : Store)
    (hnd : (okHashes L).Nodup) :
    ((L.foldl (processCommit repoId)
        (L.foldl (processCommit repoId) st)).commits.map commitProj)
      = ((L.foldl (processCommit repoId) st).commits.map commitProj) := by
  rw [foldl_processCommit_commits_proj repoId L _ hnd,
      foldl_processCommit_commits_proj repoId L st hnd,
      List.filter_append, filter_nothit_okProj,
      List.filter_filter]
  rw [List.filter_congr (fun d _ => Bool.and_self _)]
  simp

theorem processCommit_keyDistinct (repoId : String) (st : Store) (c : RawCommit)
    (hp : st.commits.Pairwise commitKeyDistinct) :
    (processCommit repoId st c).commits.Pairwise commitKeyDistinct := by
  cases h : c.parents.isEmpty with
  | true => rw [processCommit_of_parentless repoId st c h]; exact hp
  | false =>
    rw [processCommit_commits_of_ok repoId st c h, List.pairwise_append]
    refine ⟨List.Pairwise.sublist (List.filter_sublist _) hp,
      List.pairwise_singleton _ _, ?_⟩
    intro a ha b hb
    rw [List.mem_singleton] at hb
    subst hb
    have hmem := List.of_mem_filter ha
    unfold commitKeyDistinct
    simp only [mkCommitRow, commitDataOf]
    intro hcon
    simp [commitKeyHit, hcon.1, hcon.2] at hmem

theorem foldl_processCommit_keyDistinct (repoId : String) :
    ∀ (L : List RawCommit) (st : Store), st.commits.Pairwise commitKeyDistinct →
      (L.foldl (processCommit repoId) st).commits.Pairwise commitKeyDistinct := by
  intro L
  induction L with
  | nil => intro st hp; exact hp
  | cons c L ih => intro st hp; exact ih _ (processCommit_keyDistinct repoId st c hp)

/-! ### Lemmas: snapshot collector -/

theorem insertKV_length (m : List (String × String)) (k v : String) :
    (insertKV m k v).length ≤ m.length + 1 := by
  unfold insertKV
  cases h : m.any (fun p => decide (p.1 = k)) <;> simp [h]

theorem codebaseStep_length (fs : FS) (cb : CodebaseInfo) (f : String) :
    (codebaseStep fs cb f).fileContents.length ≤ cb.fileContents.length + 1 := by
  unfold codebaseStep
  cases fs.readFile f with
  | none => simp
  | some content =>
    dsimp only
    split
    · exact insertKV_length cb.fileContents f content
    · simp

theorem foldl_codebaseStep_length (fs : FS) :
    ∀ (files : List String) (cb : CodebaseInfo),
      (files.foldl (codebaseStep fs) cb).fileContents.length
        ≤ cb.fileContents.length + files.length := by
  intro files
  induction files with
  | nil => intro cb; simp
  | cons f t ih =>
    intro cb
    calc (t.foldl (codebaseStep fs) (codebaseStep fs cb f)).fileContents.length
        ≤ (codebaseStep fs cb f).fileContents.length + t.length := ih _
      _ ≤ (cb.fileContents.length + 1) + t.length :=
          Nat.add_le_add_right (codebaseStep_length fs cb f) _
      _ = cb.fileContents.length + (f :: t).length := by simp; omega

theorem getImportantFiles_length_le (fs : FS) :
    (getImportantFiles fs).length ≤ 50 := by
  unfold getImportantFiles
  exact List.length_take_le _ _

theorem analyzeCodebase_card_le (fs : FS) :
    (analyzeCodebase fs).fileContents.length ≤ 50 := by
  unfold analyzeCodebase
  calc ((getImportantFiles fs).foldl (codebaseStep fs)
        { totalLines := 0, fileContents := [], keyFiles := [] }).fileContents.length
      ≤ 0 + (getImportantFiles fs).length := foldl_codebaseStep_length fs _ _
    _ ≤ 50 := by
        have := getImportantFiles_length_le fs
        omega

theorem keyAbsent_lookupKV {m : List (String × String)} {k : String}
    (h : keyAbsent m k) : lookupKV m k = none := by
  unfold lookupKV
  have : m.find? (fun p => decide (p.1 = k)) = none := by
    rw [List.find?_eq_none]
    intro p hp
    simp [h p hp]
  rw [this]
  rfl

theorem insertKV_keyAbsent {m : List (String × String)} {k' : String}
    (k v : String) (h : keyAbsent m k') (hne : k ≠ k') :
    keyAbsent (insertKV m k v) k' := by
  unfold insertKV
  split
  · intro p hp
    rcases List.mem_map.mp hp with ⟨q, hq, rfl⟩
    by_cases hqk : q.1 = k
    · simp [hqk, hne]
    · simp [hqk]
      exact h q hq
  · intro p hp
    rcases List.mem_append.mp hp with hl | hr
    · exact h p hl
    · rw [List.mem_singleton] at hr
      subst hr
      exact hne

theorem codebaseStep_keyAbsent (fs : FS) (cb : CodebaseInfo) (g f : String)
    (hbig : ∀ c, fs.readFile f = some c → 100000 ≤ jsLength c)
    (h : keyAbsent cb.fileContents f) :
    keyAbsent (codebaseStep fs cb g).fileContents f := by
  unfold codebaseStep
  cases hr : fs.readFile g with
  | none => exact h
  | some content =>
    dsimp only
    split
    · rename_i hcond
      by_cases hgf : g = f
      · subst hgf
        have hge := hbig content hr
        simp at hcond
        omega
      · exact insertKV_keyAbsent g content h hgf
    · exact h

theorem foldl_codebaseStep_keyAbsent (fs : FS) (f : String)
    (hbig : ∀ c, fs.readFile f = some c → 100000 ≤ jsLength c) :
    ∀ (files : List String) (cb : CodebaseInfo), keyAbsent cb.fileContents f →
      keyAbsent ((files.foldl (codebaseStep fs) cb)).fileContents f := by
  intro files
  induction files with
  | nil => intro cb h; exact h
  | cons g t ih =>
    intro cb h
    exact ih _ (codebaseStep_keyAbsent fs cb g f hbig h)

theorem analyzeCodebase_size_ceiling (fs : FS) (f : String) (c : String)
    (hr : fs.readFile f = some c) (hbig : 100000 ≤ jsLength c) :
    lookupKV (analyzeCodebase fs).fileContents f = none := by
  apply keyAbsent_lookupKV
  unfold analyzeCodebase
  apply foldl_codebaseStep_keyAbsent fs f
  · intro c2 hc2
    rw [hr] at hc2
    injection hc2 with hc2
    subst hc2
    exact hbig
  · intro p hp
    cases hp

theorem getImportantFiles_key_priority (fs : FS) (f : String)
    (hf : f ∈ getImportantFiles fs) (hfk : isKeyFile f = false)
    (g : String) (hg : g ∈ splitFiles fs.lsFilesRaw)
    (hgi : importantFileFilter g = true) (hgk : isKeyFile g = true) :
    g ∈ getImportantFiles fs := by
  have hrepr : getImportantFiles fs
      = (((splitFiles fs.lsFilesRaw).filter importantFileFilter).filter isKeyFile
          ++ ((splitFiles fs.lsFilesRaw).filter importantFileFilter).filter
              (fun x => !isKeyFile x)).take 50 := rfl
  rw [hrepr] at hf ⊢
  have hfK : f ∉ ((splitFiles fs.lsFilesRaw).filter importantFileFilter).filter isKeyFile := by
    intro hmem
    have := (List.mem_filter.mp hmem).2
    rw [hfk] at this
    cases this
  have hKlt : (((splitFiles fs.lsFilesRaw).filter importantFileFilter).filter isKeyFile).length < 50 := by
    by_contra hge
    push_neg at hge
    rw [List.take_append_eq_append_take, Nat.sub_eq_zero_of_le hge,
      List.take_zero, List.append_nil] at hf
    exact hfK (List.mem_of_mem_take hf)
  have hgK : g ∈ ((splitFiles fs.lsFilesRaw).filter importantFileFilter).filter isKeyFile :=
    List.mem_filter.mpr ⟨List.mem_filter.mpr ⟨hg, hgi⟩, hgk⟩
  rw [List.take_append_eq_append_take,
    List.take_of_length_le (Nat.le_of_lt hKlt)]
  exact List.mem_append_left _ hgK

theorem getImportantFiles_key_order (fs : FS) :
    (getImportantFiles fs).Pairwise
      (fun a b => isKeyFile b = true → isKeyFile a = true) := by
  have hrepr : getImportantFiles fs
      = (((splitFiles fs.lsFilesRaw).filter importantFileFilter).filter isKeyFile
          ++ ((splitFiles fs.lsFilesRaw).filter importantFileFilter).filter
              (fun x => !isKeyFile x)).take 50 := rfl
  rw [hrepr]
  apply List.Pairwise.sublist (List.take_sublist _ _)
  rw [List.pairwise_append]
  refine ⟨?_, ?_, ?_⟩
  · apply List.pairwise_of_forall_mem_list
    intro a ha b hb _
    exact (List.mem_filter.mp ha).2
  · apply List.pairwise_of_forall_mem_list
    intro a ha b hb hbk
    have := (List.mem_filter.mp hb).2
    rw [hbk] at this
    cases this
  · intro a ha b hb _
    exact (List.mem_filter.mp ha).2

/-! ### Lemmas: prompt-time snapshot -/

theorem foldl_read_insert_eq_filterMap (readFile : String → Option String) :
    ∀ (fs : List String) (acc : List (String × String)), fs.Nodup →
      (∀ f ∈ fs, keyAbsent acc f) →
      fs.foldl (fun fileContents file =>
          match readFile file with
          | none => fileContents
          | some content =>
            if jsLength content < 50000 then insertKV fileContents file content
            else fileContents) acc
        = acc ++ fs.filterMap (fun f =>
            match readFile f with
            | some c => if jsLength c < 50000 then some (f, c) else none
            | none => none) := by
  intro fs
  induction fs with
  | nil => intro acc _ _; simp
  | cons f t ih =>
    intro acc hnd habs
    have hndt : t.Nodup := (List.nodup_cons.mp hnd).2
    have hfnott : f ∉ t := (List.nodup_cons.mp hnd).1
    rw [List.foldl_cons, List.filterMap_cons]
    cases hr : readFile f with
    | none =>
      rw [ih acc hndt (fun g hg => habs g (List.mem_cons_of_mem f hg))]
    | some content =>
      by_cases hlen : jsLength content < 50000
      · have hanyf : acc.any (fun p => decide (p.1 = f)) = false := by
          rw [List.any_eq_false]
          intro p hp
          simp [habs f (List.mem_cons_self f t) p hp]
        have hins : insertKV acc f content = acc ++ [(f, content)] := by
          unfold insertKV
          rw [hanyf]
          rfl
        have habs2 : ∀ g ∈ t, keyAbsent (acc ++ [(f, content)]) g := by
          intro g hg p hp
          rcases List.mem_append.mp hp with hl | hrr
          · exact habs g (List.mem_cons_of_mem f hg) p hl
          · rw [List.mem_singleton] at hrr
            subst hrr
            intro hfg
            apply hfnott
            have : f = g := hfg
            rw [this]
            exact hg
        simp only [if_pos hlen, hins]
        rw [ih (acc ++ [(f, content)]) hndt habs2]
        simp
      · simp only [if_neg hlen]
        rw [ih acc hndt (fun g hg => habs g (List.mem_cons_of_mem f hg))]

theorem getCodebaseContent_eq_filterMap (readFile : String → Option String) :
    getCodebaseContent readFile
      = codebaseKeyFilePaths.filterMap (fun f =>
          match readFile f with
          | some c => if jsLength c < 50000 then some (f, c) else none
          | none => none) := by
  unfold getCodebaseContent
  rw [foldl_read_insert_eq_filterMap readFile codebaseKeyFilePaths []
    (by decide) (fun f _ p hp => absurd hp (List.not_mem_nil p))]
  simp

/-! ### Lemmas: date-range filtering -/

theorem filterCommitsByQuery_timeRange_eq (commits : List CommitRow)
    (query : EvolutionQuery) (tr : TimeRange) (h : query.timeRange = some tr) :
    filterCommitsByQuery commits query = (commits.filter (inTimeRange tr)).take 100 := by
  unfold filterCommitsByQuery
  rw [h]

/-! ### Claim theorems -/

/-- C1 (code bug): the spec claims a root commit's files are recorded as
`FileChange` rows of kind "added" with no diff failure; in the code every
diff targets `hash^`, which fails for a parentless commit, so ingesting a
single-root-commit repository persists neither `FileChange` rows nor even
the `Commit` row — the diff computation does fail. -/
theorem rootCommit_ingestion_skipped :
    exceptFailed (diffSummary rootCommitEx) = true
    ∧ (analyzeCommitHistory "repo1" rootRepoEx 1000 emptyStore).fileChanges = []
    ∧ (analyzeCommitHistory "repo1" rootRepoEx 1000 emptyStore).commits = [] :=
  ⟨rfl, rfl, rfl⟩

/-- C2: re-running history extraction over an unchanged repository leaves
the set of commit rows — keyed by `(repo_id, hash)` and compared without
the synthetic row id — unchanged, and the natural keys stay pairwise
distinct (hypotheses: the log's processable hashes are distinct, as
`git log` guarantees, and the starting store has distinct keys). -/
theorem analyzeCommitHistory_reingest_idempotent (repoId : String) (repo : GitRepo)
    (limit : Nat) (st : Store)
    (hnd : (okHashes (repo.log.take limit)).Nodup)
    (hkeys : st.commits.Pairwise commitKeyDistinct) :
    ((analyzeCommitHistory repoId repo limit
        (analyzeCommitHistory repoId repo limit st)).commits.map commitProj
      = (analyzeCommitHistory repoId repo limit st).commits.map commitProj)
    ∧ (analyzeCommitHistory repoId repo limit st).commits.Pairwise commitKeyDistinct := by
  constructor
  · exact reingest_commits_proj repoId (repo.log.take limit) st hnd
  · exact foldl_processCommit_keyDistinct repoId (repo.log.take limit) st hkeys

/-- C2 witness: the two-commit repository, ingested twice from the empty
store. -/
theorem analyzeCommitHistory_reingest_idempotent_witness :
    runTwiceEx.commits.map commitProj = runOnceEx.commits.map commitProj
    ∧ runOnceEx.commits.Pairwise commitKeyDistinct :=
  analyzeCommitHistory_reingest_idempotent "repo1" twoCommitRepoEx 1000 emptyStore
    (by decide) (by decide)

/-- C3 (code bug): after re-running extraction, a persisted `FileChange`
row references a commit row that no longer exists — the upsert replaces
the commit row under a fresh id while the first run's `file_changes`
rows keep the old id, violating the schema's declared foreign key. -/
theorem reingestion_dangling_fileChange :
    ∃ fc ∈ runTwiceEx.fileChanges, ∀ cr ∈ runTwiceEx.commits, cr.id ≠ fc.commit_id := by
  decide

/-- C4 counterexample: `"x [1, 2] y"` does not parse as JSON, yet the
pattern parser extracts the bracket substring `"[1, 2]"`, parses it, and
returns a two-element array of numbers — not the single-element
"Analysis Error" fallback the claim promises for every non-JSON input. -/
theorem parsePatternResponse_nonjson_counterexample :
    jsonParse "x [1, 2] y" = none
    ∧ parsePatternResponse "x [1, 2] y" = JVal.arr [JVal.num "1", JVal.num "2"]
    ∧ parsePatternResponse "x [1, 2] y" ≠ patternFallback "x [1, 2] y" := by
  refine ⟨rfl, rfl, fun h => ?_⟩
  rw [show parsePatternResponse "x [1, 2] y"
      = JVal.arr [JVal.num "1", JVal.num "2"] from rfl] at h
  simp [patternFallback] at h

/-- C4 amended: whenever the extracted bracket substring (the whole text
when there is no match) fails to parse as JSON, the pattern parser
returns exactly the single-element fallback whose element has
pattern="Analysis Error", impact="low", and whose evolution entry embeds
the first 200 characters of the raw response; the parser is total. -/
theorem parsePatternResponse_fallback (response : String)
    (h : jsonParse (extractBracket '[' ']' response) = none) :
    parsePatternResponse response = patternFallback response
    ∧ (∃ r, patternFallback response = JVal.arr [r]
        ∧ jfield r "pattern" = some (JVal.str "Analysis Error")
        ∧ jfield r "impact" = some (JVal.str "low")
        ∧ jfield r "evolution"
            = some (JVal.arr [JVal.str
                ("Raw response: " ++ jsSubstring0 200 response ++ "...")])) := by
  constructor
  · unfold parsePatternResponse
    rw [h]
  · exact ⟨_, rfl, rfl, rfl, rfl⟩

/-- C4 witness: the fallback equation at the concrete non-JSON input
`"not json"`. -/
theorem parsePatternResponse_fallback_witness :
    parsePatternResponse "not json" = patternFallback "not json" :=
  (parsePatternResponse_fallback "not json" rfl).1

/-- C5 counterexample: `"5"` is valid JSON, so the pattern parser
returns the parsed number unvalidated — not a sequence of pattern
records; the typed-shape half of the claim fails. -/
theorem parsePatternResponse_unvalidated_counterexample :
    parsePatternResponse "5" = JVal.num "5"
    ∧ isPatternSeq (JVal.num "5") = false :=
  ⟨rfl, rfl⟩

/-- C5 amended: every mode's parser is total — on parse failure it
returns a fallback that does conform to the mode's typed shape, and on
parse success it returns the parsed JSON value as-is, with no shape
validation. -/
theorem parse_responses_total_shapes (response : String) :
    (jsonParse (extractBracket lbraceChar rbraceChar response) = none →
      isEvolutionShape (parseEvolutionResponse response) = true)
    ∧ (∀ v, jsonParse (extractBracket lbraceChar rbraceChar response) = some v →
        parseEvolutionResponse response = v)
    ∧ (jsonParse (extractBracket '[' ']' response) = none →
        isPatternSeq (parsePatternResponse response) = true)
    ∧ (∀ v, jsonParse (extractBracket '[' ']' response) = some v →
        parsePatternResponse response = v)
    ∧ (jsonParse (extractBracket '[' ']' response) = none →
        isArchSeq (parseArchitecturalResponse response) = true)
    ∧ (∀ v, jsonParse (extractBracket '[' ']' response) = some v →
        parseArchitecturalResponse response = v) := by
  refine ⟨?_, ?_, ?_, ?_, ?_, ?_⟩
  · intro h
    unfold parseEvolutionResponse
    rw [h]
    rfl
  · intro v h
    unfold parseEvolutionResponse
    rw [h]
  · intro h
    unfold parsePatternResponse
    rw [h]
    rfl
  · intro v h
    unfold parsePatternResponse
    rw [h]
  · intro h
    unfold parseArchitecturalResponse
    rw [h]
    rfl
  · intro v h
    unfold parseArchitecturalResponse
    rw [h]

/-- C5 witness: the pattern fallback at a concrete unparseable input
conforms to the `PatternAnalysis[]` shape. -/
theorem parse_responses_total_shapes_witness :
    isPatternSeq (parsePatternResponse "oops") = true :=
  (parse_responses_total_shapes "oops").2.2.1 rfl

/-- C6 counterexample: a query with a file-path filter still includes a
commit that touched no file at all — the filter is not applied. -/
theorem filterCommitsByQuery_filePath_counterexample :
    filterCommitsByQuery [c6row] q6 = [c6row]
    ∧ ¬ commitTouchedFile st6 c6row "a.ts" := by
  constructor
  · rfl
  · decide

/-- C6 amended: the evolution query's file-path filter is ignored — the
source's `if (query.filePath)` branch is empty, so the result is
independent of the `filePath` field. -/
theorem filterCommitsByQuery_ignores_filePath (commits : List CommitRow)
    (query : EvolutionQuery) (p : Option String) :
    filterCommitsByQuery commits { query with filePath := p }
      = filterCommitsByQuery commits query := rfl

/-- C7: with a date range present, the filtered list is exactly the
candidates whose date lies within the inclusive bounds, in original
order, with the 100-commit cap applied after filtering; and when the
candidates are newest-first (as `Database.getCommits`'s
`ORDER BY date DESC` provides), every commit truncated by the cap is no
newer than every commit kept. -/
theorem filterCommitsByQuery_dateRange (commits : List CommitRow)
    (query : EvolutionQuery) (tr : TimeRange) (h : query.timeRange = some tr) :
    filterCommitsByQuery commits query = (commits.filter (inTimeRange tr)).take 100
    ∧ (commits.Pairwise (fun a b => jsDateVal b.date ≤ jsDateVal a.date) →
        ∀ y ∈ (commits.filter (inTimeRange tr)).drop 100,
          ∀ x ∈ filterCommitsByQuery commits query,
            jsDateVal y.date ≤ jsDateVal x.date) := by
  have h1 := filterCommitsByQuery_timeRange_eq commits query tr h
  refine ⟨h1, ?_⟩
  intro hsorted y hy x hx
  rw [h1] at hx
  have hpF : (commits.filter (inTimeRange tr)).Pairwise
      (fun a b => jsDateVal b.date ≤ jsDateVal a.date) :=
    List.Pairwise.sublist (List.filter_sublist _) hsorted
  have hsplit := List.take_append_drop 100 (commits.filter (inTimeRange tr))
  rw [← hsplit, List.pairwise_append] at hpF
  exact hpF.2.2 x hx y hy

/-- C7 witness: the spec's example — ten monthly commits and the range
`[2023-03-01, 2023-06-01]` keep exactly the four in-range commits in
original order. -/
theorem filterCommitsByQuery_dateRange_witness :
    filterCommitsByQuery datedRowsEx q7
      = [mkDatedRow 5 "2023-06-01", mkDatedRow 4 "2023-05-01",
         mkDatedRow 3 "2023-04-01", mkDatedRow 2 "2023-03-01"] := by
  have h := (filterCommitsByQuery_dateRange datedRowsEx q7 marchToJuneEx rfl).1
  rw [h]
  decide

/-- C8: the snapshot mapping has at most 50 entries; in the selected
file list no non-key file ever precedes a key file, and whenever a
non-key file is selected every eligible key file is selected too; and a
readable file whose content reaches the 100,000-character ceiling never
appears in the mapping. -/
theorem analyzeCodebase_snapshot_bounds (fs : FS) :
    (analyzeCodebase fs).fileContents.length ≤ 50
    ∧ (getImportantFiles fs).Pairwise
        (fun a b => isKeyFile b = true → isKeyFile a = true)
    ∧ (∀ f, f ∈ getImportantFiles fs → isKeyFile f = false →
        ∀ g, g ∈ splitFiles fs.lsFilesRaw → importantFileFilter g = true →
          isKeyFile g = true → g ∈ getImportantFiles fs)
    ∧ (∀ f c, fs.readFile f = some c → 100000 ≤ jsLength c →
        lookupKV (analyzeCodebase fs).fileContents f = none) := by
  refine ⟨analyzeCodebase_card_le fs, getImportantFiles_key_order fs, ?_, ?_⟩
  · intro f hf hfk g hg hgi hgk
    exact getImportantFiles_key_priority fs f hf hfk g hg hgi hgk
  · intro f c hr hbig
    exact analyzeCodebase_size_ceiling fs f c hr hbig

/-- C8 witness: in a tree with one non-key eligible file and one key
eligible file, selecting the non-key file forces the key file to be
selected as well. -/
theorem analyzeCodebase_snapshot_bounds_witness :
    "index.ts" ∈ getImportantFiles fs0 :=
  (analyzeCodebase_snapshot_bounds fs0).2.2.1 "foo.ts" (by decide) (by decide)
    "index.ts" (by decide) (by decide) (by decide)

/-- C9 (code bug): the status codes classify as A→added, M→modified,
D→deleted, R→renamed, default→modified, but for the rename line
`R100\told.ts\tnew.ts` the persisted row carries the pre-rename path in
`file_path` and the post-rename path in `old_path` — swapped relative to
the claim (and to the field names). -/
theorem nameStatus_rename_swaps_paths :
    (analyzeFileChanges emptyStore 0 renameCommitEx).fileChanges.map
        (fun fc => (fc.file_path, fc.change_type, fc.old_path))
      = [("added.ts", ChangeType.added, none),
         ("mod.ts", ChangeType.modified, none),
         ("del.ts", ChangeType.deleted, none),
         ("old.ts", ChangeType.renamed, some "new.ts"),
         ("other.ts", ChangeType.modified, none)] := by
  decide

/-- C10: the prompt-time snapshot equals a filter of the fixed nine-path
list — a path is included with content `c` exactly when it reads as `c`
with fewer than 50,000 characters — hence has at most nine entries, and
it depends on the working tree only through `readFile`, not on the
ingestion-time 50-file selection. -/
theorem getCodebaseContent_spec (readFile : String → Option String) :
    getCodebaseContent readFile
      = codebaseKeyFilePaths.filterMap (fun f =>
          match readFile f with
          | some c => if jsLength c < 50000 then some (f, c) else none
          | none => none)
    ∧ (getCodebaseContent readFile).length ≤ 9
    ∧ (∀ fs1 fs2 : FS, fs1.readFile = fs2.readFile →
        getCodebaseContent fs1.readFile = getCodebaseContent fs2.readFile) := by
  refine ⟨getCodebaseContent_eq_filterMap readFile, ?_, ?_⟩
  · rw [getCodebaseContent_eq_filterMap readFile]
    calc (codebaseKeyFilePaths.filterMap _).length
        ≤ codebaseKeyFilePaths.length := List.length_filterMap_le _ _
      _ = 9 := rfl
  · intro fs1 fs2 h
    rw [h]

/-- C10 witness: with a read function resolving only `README.md`, the
snapshot is exactly that one entry. -/
theorem getCodebaseContent_spec_witness :
    getCodebaseContent rf0 = [("README.md", "hello")] := by
  have h := (getCodebaseContent_spec rf0).1
  rw [h]
  rfl
